import Mathlib

/-!
Verification development for the execfs repository.

The repository ships a FUSE filesystem in which opening a virtual file
executes the backing program and serves its captured output as the file's
content.  The installable package metadata lives in `src/setup.py`; the
core filesystem-operation layer (path resolver, exec session manager,
handle table, read/write adapter, lifecycle reaper) is modelled here from
the specification, faithful to its stated contracts.
-/

namespace Execfs

/-- A byte, modelled as a natural number (values below 256 in practice). -/
abbrev Byte := Nat

/-- Faults in the dispatcher's fault vocabulary (spec section 6/7). -/
inductive Fault where
  | notFound
  | notExecutable
  | ioError
  | badHandle
  deriving Repr, DecidableEq

/-- Spawn-time failure causes of the process-creation primitive (spec section 7(b)). -/
inductive SpawnError where
  | missingInterpreter
  | permissionDenied
  | resourceExhaustion
  deriving Repr, DecidableEq

/-- Modelled from the spec: a backing-tree entry for a regular file.  The
executable script is not part of the reviewed sources, so the backing file
carries the data the spec says the core consumes: the executable permission
bit, the byte chunks the program emits on its output stream in emission
order, the program's exit code, and whether the spawn primitive would fail
for it (missing interpreter, permission denied, resource exhaustion). -/
structure BackingFile where
  executable : Bool
  output : List (List Byte)
  exitCode : Nat
  spawnFault : Option SpawnError
  deriving Repr, DecidableEq, Inhabited

/-- The backing tree: a finite listing from backing paths (character lists)
to backing files. -/
abbrev BackingTree := List (List Char × BackingFile)

/-- First entry with the given key in an association list. -/
def findEntry {α : Type} (k : Nat) : List (Nat × α) → Option α
  | [] => none
  | e :: es => if e.1 = k then some e.2 else findEntry k es

/-- First backing file listed under the given backing path. -/
def findFile (path : List Char) : BackingTree → Option BackingFile
  | [] => none
  | e :: es => if e.1 = path then some e.2 else findFile path es

/-! ## Path Resolver (spec section 4.1)

Modelled from the spec: the resolver splits a virtual path into a backing
path plus an argument list at a reserved delimiter character, and is a pure
function of the path string and the backing tree's listing. -/

/-- Split a character list into the groups separated by the delimiter `d`.
Always returns at least one group. -/
def splitOnChar (d : Char) : List Char → List (List Char)
  | [] => [[]]
  | c :: cs =>
    if c = d then [] :: splitOnChar d cs
    else
      match splitOnChar d cs with
      | [] => [[c]]
      | g :: gs => (c :: g) :: gs

/-- Join groups of characters with the delimiter `d` between them. -/
def joinWith (d : Char) : List (List Char) → List Char
  | [] => []
  | [g] => g
  | g :: gs => g ++ d :: joinWith d gs

/-- Modelled from the spec: the Path Resolver.  Splits the virtual path
into the backing path (the part before the first reserved delimiter) and
the argument list (the remaining delimiter-separated groups).  The
delimiter is a parameter since the spec fixes only that one reserved
delimiter character exists. -/
def resolve (d : Char) (vpath : List Char) : List Char × List (List Char) :=
  match splitOnChar d vpath with
  | [] => ([], [])
  | b :: args => (b, args)

/-- Modelled from the spec: re-joining a backing path and argument list
with the reserved delimiter, the inverse direction of `resolve`. -/
def rejoin (d : Char) (backing : List Char) (args : List (List Char)) : List Char :=
  joinWith d (backing :: args)

theorem splitOnChar_ne_nil (d : Char) (l : List Char) : splitOnChar d l ≠ [] := by
  cases l with
  | nil => simp [splitOnChar]
  | cons c cs =>
    simp only [splitOnChar]
    by_cases h : c = d
    · simp [h]
    · simp only [h, if_false]
      cases splitOnChar d cs with
      | nil => simp
      | cons g gs => simp

theorem joinWith_splitOnChar (d : Char) (l : List Char) :
    joinWith d (splitOnChar d l) = l := by
  induction l with
  | nil => rfl
  | cons c cs ih =>
    simp only [splitOnChar]
    by_cases h : c = d
    · simp only [h, if_true]
      cases hs : splitOnChar d cs with
      | nil => exact absurd hs (splitOnChar_ne_nil d cs)
      | cons g gs =>
        rw [hs] at ih
        simp [joinWith, ← ih]
    · simp only [h, if_false]
      cases hs : splitOnChar d cs with
      | nil => exact absurd hs (splitOnChar_ne_nil d cs)
      | cons g gs =>
        rw [hs] at ih
        cases gs with
        | nil => simp [joinWith] at ih ⊢; exact ih
        | cons g2 gs2 => simp [joinWith] at ih ⊢; exact ih

/-! ## Exec Session Manager (spec sections 3, 4.3)

Modelled from the spec: the executable script is not part of the reviewed
sources; the ExecSession record and its operations follow the spec's data
model and contracts. -/

/-- Modelled from the spec: an ExecSession binds one open handle to one
subprocess.  `buffer` is the drained output so far, `pending` the chunks
the subprocess has yet to emit, `completed` the completion flag,
`exitStatus` the exit status once known, `inputOpen`/`inputBuf` the state
of the subprocess's input stream, and `progExit` the exit code the program
reports on natural completion. -/
structure ExecSession where
  procId : Nat
  args : List (List Char)
  buffer : List Byte
  pending : List (List Byte)
  completed : Bool
  exitStatus : Option Nat
  inputOpen : Bool
  inputBuf : List Byte
  progExit : Nat
  deriving Repr, DecidableEq

/-- Modelled from the spec: the fresh session allocated by `open` for a
spawned subprocess, before any output has been drained. -/
def initSession (pid : Nat) (args : List (List Char)) (f : BackingFile) : ExecSession :=
  { procId := pid, args := args, buffer := [], pending := f.output,
    completed := false, exitStatus := none, inputOpen := true,
    inputBuf := [], progExit := f.exitCode }

/-- Modelled from the spec: one step of the per-session drain activity.
If the session is already finalized it does nothing; otherwise it appends
the next available output chunk to the buffer, or — when the output stream
is exhausted — marks the session complete and records the exit status. -/
def drain1 (s : ExecSession) : ExecSession :=
  if s.completed then s
  else
    match s.pending with
    | [] => { s with completed := true, exitStatus := some s.progExit }
    | c :: cs => { s with buffer := s.buffer ++ c, pending := cs }

/-- Modelled from the spec: `write` forwards bytes to the subprocess's
input stream if still open, and is a silent no-op otherwise. -/
def writeSession (s : ExecSession) (bs : List Byte) : ExecSession :=
  if s.inputOpen then { s with inputBuf := s.inputBuf ++ bs } else s

/-- Modelled from the spec: `close_input` closes the subprocess's input
stream. -/
def closeInput (s : ExecSession) : ExecSession :=
  { s with inputOpen := false }

/-- Modelled from the spec: forced finalization of a session on `release`,
after which the buffer is read-only. -/
def finalizeSession (s : ExecSession) : ExecSession :=
  if s.completed then s
  else { s with completed := true, inputOpen := false }

/-- Modelled from the spec: the Read/Write Adapter's view of a read at an
offset: the available bytes of the session buffer starting at `off`,
truncated to `len`. -/
def readSession (s : ExecSession) (off len : Nat) : List Byte :=
  (s.buffer.drop off).take len

/-- Modelled from the spec: the operations of the core that touch a
session.  Every mutation of a session during its lifetime is one of drain,
write, close-input, or finalization. -/
inductive SessionStep : ExecSession → ExecSession → Prop where
  | drain (s : ExecSession) : SessionStep s (drain1 s)
  | write (s : ExecSession) (bs : List Byte) : SessionStep s (writeSession s bs)
  | close (s : ExecSession) : SessionStep s (closeInput s)
  | finalize (s : ExecSession) : SessionStep s (finalizeSession s)

/-! ## Handle Table, process table and the core state (spec sections 4.4-4.6) -/

/-- Modelled from the spec: the observable state of a spawned subprocess
and its stream descriptors, for leak accounting. -/
structure ProcState where
  alive : Bool
  inOpen : Bool
  outOpen : Bool
  deriving Repr, DecidableEq

/-- Modelled from the spec: the mount's core state — the backing tree, the
handle table mapping handles to sessions, the process table, and fresh-id
counters for handles and subprocess identifiers. -/
structure CoreState where
  delim : Char
  tree : BackingTree
  nextHandle : Nat
  nextProc : Nat
  table : List (Nat × ExecSession)
  procs : List (Nat × ProcState)
  deriving Repr, DecidableEq

/-- Modelled from the spec: `lookup` resolves the virtual path and answers
from the backing file's metadata; it returns not-found when the backing
file is absent and spawns nothing (the state component of the result is
the unchanged input state). -/
def execLookup (st : CoreState) (vpath : List Char) :
    Except Fault BackingFile × CoreState :=
  match findFile (resolve st.delim vpath).1 st.tree with
  | none => (.error .notFound, st)
  | some f => (.ok f, st)

/-- Modelled from the spec: `open` resolves the path, validates existence
and the executable bit, then asks the spawn primitive for a subprocess;
a spawn fault is surfaced as an I/O error with the state unchanged, and on
success a fresh session is registered under a fresh handle. -/
def execOpen (st : CoreState) (vpath : List Char) : Except Fault Nat × CoreState :=
  match findFile (resolve st.delim vpath).1 st.tree with
  | none => (.error .notFound, st)
  | some f =>
    if f.executable = false then (.error .notExecutable, st)
    else
      match f.spawnFault with
      | some _ => (.error .ioError, st)
      | none =>
        (.ok st.nextHandle,
          { st with
            nextHandle := st.nextHandle + 1
            nextProc := st.nextProc + 1
            table :=
              (st.nextHandle,
                initSession st.nextProc (resolve st.delim vpath).2 f) :: st.table
            procs := (st.nextProc, ⟨true, true, true⟩) :: st.procs })

/-- Modelled from the spec: `read(handle, offset, length)` looks the
session up in the handle table and serves the available bytes at the
requested offset, never blocking and never mutating state. -/
def execRead (st : CoreState) (h off len : Nat) :
    Except Fault (List Byte) × CoreState :=
  match findEntry h st.table with
  | none => (.error .badHandle, st)
  | some s => (.ok (readSession s off len), st)

/-- Modelled from the spec: one step of the drain activity of the session
bound to handle `h`, applied inside the handle table. -/
def drainHandle (st : CoreState) (h : Nat) : CoreState :=
  { st with
    table := st.table.map (fun e => if e.1 = h then (e.1, drain1 e.2) else e) }

/-- Mark the subprocess with identifier `p` terminated with all stream
descriptors closed. -/
def reapProc (p : Nat) (procs : List (Nat × ProcState)) : List (Nat × ProcState) :=
  procs.map (fun e => if e.1 = p then (e.1, ⟨false, false, false⟩) else e)

/-- Modelled from the spec: the Lifecycle Reaper's `release(handle)` —
closes the session's input stream, terminates or reaps the subprocess
(closing its stream descriptors), and removes the handle table entry; it
does so on every path, whatever the session's drain progress. -/
def release (st : CoreState) (h : Nat) : CoreState :=
  match findEntry h st.table with
  | none => st
  | some s =>
    { st with
      table := st.table.filter (fun e => e.1 != h)
      procs := reapProc s.procId st.procs }

/-! ## Helper lemmas -/

theorem execRead_snd (st : CoreState) (h off len : Nat) :
    (execRead st h off len).2 = st := by
  unfold execRead
  cases findEntry h st.table <;> rfl

theorem execRead_found (st : CoreState) (h off len : Nat) (s : ExecSession)
    (hfind : findEntry h st.table = some s) :
    (execRead st h off len).1 = Except.ok (readSession s off len) := by
  unfold execRead
  rw [hfind]

theorem drain1_not_completed_nil (s : ExecSession) (hc : s.completed = false)
    (hp : s.pending = []) :
    drain1 s = { s with completed := true, exitStatus := some s.progExit } := by
  simp [drain1, hc, hp]

theorem drain1_not_completed_cons (s : ExecSession) (c : List Byte)
    (cs : List (List Byte)) (hc : s.completed = false) (hp : s.pending = c :: cs) :
    drain1 s = { s with buffer := s.buffer ++ c, pending := cs } := by
  simp [drain1, hc, hp]

theorem drain_run (p : List (List Byte)) :
    ∀ s : ExecSession, s.pending = p → s.completed = false →
    (drain1^[p.length + 1] s).completed = true ∧
    (drain1^[p.length + 1] s).buffer = s.buffer ++ p.flatten := by
  induction p with
  | nil =>
    intro s hp hc
    rw [List.length_nil, Function.iterate_one, drain1_not_completed_nil s hc hp]
    exact ⟨rfl, by simp⟩
  | cons c cs ih =>
    intro s hp hc
    rw [show (c :: cs).length + 1 = (cs.length + 1) + 1 from by simp,
      Function.iterate_succ_apply, drain1_not_completed_cons s c cs hc hp]
    obtain ⟨ha, hb⟩ := ih { s with buffer := s.buffer ++ c, pending := cs } rfl hc
    exact ⟨ha, by rw [hb]; simp [List.flatten_cons, List.append_assoc]⟩

theorem findEntry_filter_out {α : Type} (h : Nat) (l : List (Nat × α)) :
    findEntry h (l.filter (fun e => e.1 != h)) = none := by
  induction l with
  | nil => rfl
  | cons e es ih =>
    by_cases he : e.1 = h
    · simpa [List.filter_cons, he] using ih
    · simpa [List.filter_cons, he, findEntry] using ih

theorem findEntry_map_key {α : Type} (h k : Nat) (f : α → α) (l : List (Nat × α))
    (hne : h ≠ k) :
    findEntry h (l.map (fun e => if e.1 = k then (e.1, f e.2) else e)) =
      findEntry h l := by
  induction l with
  | nil => rfl
  | cons e es ih =>
    by_cases hek : e.1 = k
    · have hkh : ¬ k = h := fun hh => hne hh.symm
      simp [List.map_cons, hek, findEntry, hkh, ih]
    · by_cases heh : e.1 = h
      · simp [List.map_cons, hek, findEntry, heh, hne, ih]
      · simp [List.map_cons, hek, findEntry, heh, ih]

theorem findEntry_reap (p : Nat) (l : List (Nat × ProcState)) (q : ProcState)
    (hq : findEntry p (reapProc p l) = some q) :
    q.alive = false ∧ q.inOpen = false ∧ q.outOpen = false := by
  induction l with
  | nil => exact absurd hq (by simp [reapProc, findEntry])
  | cons e es ih =>
    simp only [reapProc, List.map_cons] at hq
    by_cases hep : e.1 = p
    · rw [if_pos hep] at hq
      unfold findEntry at hq
      rw [if_pos hep] at hq
      cases hq
      exact ⟨rfl, rfl, rfl⟩
    · rw [if_neg hep] at hq
      unfold findEntry at hq
      rw [if_neg hep] at hq
      exact ih hq

theorem execOpen_ok (st : CoreState) (vpath : List Char) (h : Nat) (st' : CoreState)
    (ho : execOpen st vpath = (Except.ok h, st')) :
    h = st.nextHandle ∧
    st'.nextHandle = st.nextHandle + 1 ∧
    st'.nextProc = st.nextProc + 1 ∧
    st'.table =
      (st.nextHandle,
        initSession st.nextProc (resolve st.delim vpath).2
          ((findFile (resolve st.delim vpath).1 st.tree).getD default)) :: st.table ∧
    st'.delim = st.delim ∧ st'.tree = st.tree := by
  unfold execOpen at ho
  split at ho
  · simp at ho
  · rename_i f hf
    split at ho
    · simp at ho
    · split at ho
      · simp at ho
      · injection ho with hoa hob
        injection hoa with hoa
        subst hoa hob
        exact ⟨rfl, rfl, rfl, by rw [hf]; rfl, rfl, rfl⟩

/-! ## Concrete example states -/

/-- A backing file whose program writes the bytes of "hello" in two chunks
and exits 0. -/
def exFile : BackingFile :=
  { executable := true, output := [[104, 101], [108, 108, 111]], exitCode := 0,
    spawnFault := none }

/-- A backing file without the executable permission bit. -/
def exFileNoExec : BackingFile :=
  { executable := false, output := [[1, 2]], exitCode := 0, spawnFault := none }

/-- A backing file for which the spawn primitive errors. -/
def exFileSpawnFail : BackingFile :=
  { executable := true, output := [], exitCode := 0,
    spawnFault := some SpawnError.missingInterpreter }

/-- A fresh mount state over a one-entry backing tree. -/
def exState : CoreState :=
  { delim := '#', tree := [(['p'], exFile)], nextHandle := 0, nextProc := 0,
    table := [], procs := [] }

/-- The session for `exFile` after its drain activity has run to completion. -/
def exDrained : ExecSession := drain1^[exFile.output.length + 1] (initSession 0 [] exFile)

/-- A mount state holding the completed `exFile` session under handle 0. -/
def exStateC1 : CoreState :=
  { delim := '#', tree := [(['p'], exFile)], nextHandle := 1, nextProc := 1,
    table := [(0, exDrained)], procs := [(0, ⟨false, false, false⟩)] }

/-- A still-running session that has drained only the first chunk so far. -/
def exRunning : ExecSession :=
  { procId := 0, args := [], buffer := [104, 101], pending := [[108, 108, 111]],
    completed := false, exitStatus := none, inputOpen := true, inputBuf := [],
    progExit := 0 }

/-- A mount state holding the still-running session under handle 0. -/
def exStateC2 : CoreState :=
  { delim := '#', tree := [(['p'], exFile)], nextHandle := 1, nextProc := 1,
    table := [(0, exRunning)], procs := [(0, ⟨true, true, true⟩)] }

/-- A mount state over a tree whose only file is not executable. -/
def exStateC4 : CoreState :=
  { delim := '#', tree := [(['n'], exFileNoExec)], nextHandle := 0, nextProc := 0,
    table := [], procs := [] }

/-- A mount state over a tree whose only file makes the spawn primitive fail. -/
def exStateC5 : CoreState :=
  { delim := '#', tree := [(['s'], exFileSpawnFail)], nextHandle := 0, nextProc := 0,
    table := [], procs := [] }

/-! ## Claims -/

/-- C1: for a backing program with a fixed byte output whose session has been
fully drained (the session completed), a read at offset 0 with length at least
the output length returns exactly the program's output bytes, and — the read
leaving the state unchanged — a second identical read returns the same bytes. -/
theorem C1_completed_full_read_exact_idempotent
    (st : CoreState) (h len pid : Nat) (args : List (List Char)) (f : BackingFile)
    (hfind : findEntry h st.table =
      some (drain1^[f.output.length + 1] (initSession pid args f)))
    (hlen : f.output.flatten.length ≤ len) :
    (drain1^[f.output.length + 1] (initSession pid args f)).completed = true ∧
    (execRead st h 0 len).1 = Except.ok f.output.flatten ∧
    execRead (execRead st h 0 len).2 h 0 len = execRead st h 0 len := by
  obtain ⟨hc, hb⟩ := drain_run f.output (initSession pid args f) rfl rfl
  refine ⟨hc, ?_, by rw [execRead_snd]⟩
  rw [execRead_found st h 0 len _ hfind]
  unfold readSession
  rw [hb]
  simp only [initSession, List.nil_append, List.drop_zero,
    List.take_of_length_le hlen]

theorem C1_witness :
    (drain1^[exFile.output.length + 1] (initSession 0 [] exFile)).completed = true ∧
    (execRead exStateC1 0 0 16).1 = Except.ok exFile.output.flatten ∧
    execRead (execRead exStateC1 0 0 16).2 0 0 16 = execRead exStateC1 0 0 16 :=
  C1_completed_full_read_exact_idempotent exStateC1 0 16 0 [] exFile (by decide)
    (by decide)

/-- C2: a read on a not-yet-completed session whose requested range extends
past the available buffer returns (without error) exactly the available bytes
from the requested offset on — a suffix of the buffer, so no byte beyond what
the subprocess emitted is ever served. -/
theorem C2_read_past_available_prefix
    (st : CoreState) (h off len : Nat) (s : ExecSession)
    (hfind : findEntry h st.table = some s)
    (_hc : s.completed = false)
    (hpast : s.buffer.length < off + len) :
    (execRead st h off len).1 = Except.ok (s.buffer.drop off) ∧
    s.buffer.drop off <:+ s.buffer := by
  refine ⟨?_, List.drop_suffix off s.buffer⟩
  rw [execRead_found st h off len s hfind]
  unfold readSession
  congr 1
  apply List.take_of_length_le
  rw [List.length_drop]
  omega

theorem C2_witness :
    (execRead exStateC2 0 1 8).1 = Except.ok (exRunning.buffer.drop 1) ∧
    exRunning.buffer.drop 1 <:+ exRunning.buffer :=
  C2_read_past_available_prefix exStateC2 0 1 8 exRunning (by decide) (by decide)
    (by decide)

/-- C3: looking up a virtual path whose backing file is absent from the
backing tree returns the not-found fault and leaves the state unchanged — in
particular no subprocess is spawned (process table and process counter are
untouched). -/
theorem C3_absent_lookup_not_found (st : CoreState) (vpath : List Char)
    (habs : findFile (resolve st.delim vpath).1 st.tree = none) :
    execLookup st vpath = (Except.error Fault.notFound, st) ∧
    (execLookup st vpath).2.procs = st.procs ∧
    (execLookup st vpath).2.nextProc = st.nextProc := by
  have h1 : execLookup st vpath = (Except.error Fault.notFound, st) := by
    unfold execLookup
    rw [habs]
  exact ⟨h1, by rw [h1], by rw [h1]⟩

theorem C3_witness :
    execLookup exState ['q'] = (Except.error Fault.notFound, exState) ∧
    (execLookup exState ['q']).2.procs = exState.procs ∧
    (execLookup exState ['q']).2.nextProc = exState.nextProc :=
  C3_absent_lookup_not_found exState ['q'] (by decide)

/-- C4: opening a virtual path whose backing file exists but lacks the
executable bit fails with the not-executable fault, leaves the handle and
process tables unchanged (no subprocess spawned), and — the state being
unchanged — a repeated invocation fails with the very same fault. -/
theorem C4_nonexecutable_open_fails (st : CoreState) (vpath : List Char)
    (f : BackingFile)
    (hf : findFile (resolve st.delim vpath).1 st.tree = some f)
    (hx : f.executable = false) :
    execOpen st vpath = (Except.error Fault.notExecutable, st) ∧
    execOpen (execOpen st vpath).2 vpath = (Except.error Fault.notExecutable, st) ∧
    (execOpen st vpath).2.table = st.table ∧
    (execOpen st vpath).2.procs = st.procs := by
  have h1 : execOpen st vpath = (Except.error Fault.notExecutable, st) := by
    simp [execOpen, hf, hx]
  exact ⟨h1, by rw [h1]; exact h1, by rw [h1], by rw [h1]⟩

theorem C4_witness :
    execOpen exStateC4 ['n'] = (Except.error Fault.notExecutable, exStateC4) ∧
    execOpen (execOpen exStateC4 ['n']).2 ['n'] =
      (Except.error Fault.notExecutable, exStateC4) ∧
    (execOpen exStateC4 ['n']).2.table = exStateC4.table ∧
    (execOpen exStateC4 ['n']).2.procs = exStateC4.procs :=
  C4_nonexecutable_open_fails exStateC4 ['n'] exFileNoExec (by decide) (by decide)

/-- C5: when the spawn primitive errors at open time, open returns an I/O
error to the caller, registers no session (handle table unchanged), spawns no
process (process table and counter unchanged), and returns a value rather than
aborting the mount. -/
theorem C5_spawn_fault_io_error (st : CoreState) (vpath : List Char)
    (f : BackingFile) (e : SpawnError)
    (hf : findFile (resolve st.delim vpath).1 st.tree = some f)
    (hx : f.executable = true)
    (hs : f.spawnFault = some e) :
    execOpen st vpath = (Except.error Fault.ioError, st) ∧
    (execOpen st vpath).2.table = st.table ∧
    (execOpen st vpath).2.procs = st.procs ∧
    (execOpen st vpath).2.nextProc = st.nextProc := by
  have h1 : execOpen st vpath = (Except.error Fault.ioError, st) := by
    simp [execOpen, hf, hx, hs]
  exact ⟨h1, by rw [h1], by rw [h1], by rw [h1]⟩

theorem C5_witness :
    execOpen exStateC5 ['s'] = (Except.error Fault.ioError, exStateC5) ∧
    (execOpen exStateC5 ['s']).2.table = exStateC5.table ∧
    (execOpen exStateC5 ['s']).2.procs = exStateC5.procs ∧
    (execOpen exStateC5 ['s']).2.nextProc = exStateC5.nextProc :=
  C5_spawn_fault_io_error exStateC5 ['s'] exFileSpawnFail
    SpawnError.missingInterpreter (by decide) (by decide) (by decide)

theorem sessionStep_buffer_grows (s s' : ExecSession) (hstep : SessionStep s s') :
    s.buffer <+: s'.buffer := by
  cases hstep with
  | drain =>
    cases hcb : s.completed with
    | true => simp [drain1, hcb]
    | false =>
      cases hp : s.pending with
      | nil => rw [drain1_not_completed_nil s hcb hp]
      | cons c cs =>
        rw [drain1_not_completed_cons s c cs hcb hp]
        exact List.prefix_append s.buffer c
  | write bs =>
    unfold writeSession
    by_cases hio : s.inputOpen = true <;> simp [hio]
  | close => exact List.prefix_refl _
  | finalize =>
    unfold finalizeSession
    by_cases hcb : s.completed = true <;> simp [hcb]

theorem sessionStep_final_immutable (s s' : ExecSession) (hstep : SessionStep s s')
    (hc : s.completed = true) : s'.buffer = s.buffer ∧ s'.completed = true := by
  cases hstep with
  | drain => simp [drain1, hc]
  | write bs =>
    unfold writeSession
    by_cases hio : s.inputOpen = true <;> simp [hio, hc]
  | close => exact ⟨rfl, hc⟩
  | finalize => simp [finalizeSession, hc]

/-- C6: session output buffers are append-only — every core operation on a
session extends the buffer, the old buffer being a prefix of the new; once a
session is finalized no operation changes its buffer (and it stays finalized);
and a session whose drain activity ran to natural completion is completed and
holds exactly the subprocess's full output. -/
theorem C6_buffer_append_only_until_final :
    (∀ s s' : ExecSession, SessionStep s s' → s.buffer <+: s'.buffer) ∧
    (∀ s s' : ExecSession, SessionStep s s' → s.completed = true →
      s'.buffer = s.buffer ∧ s'.completed = true) ∧
    ∀ (pid : Nat) (args : List (List Char)) (f : BackingFile),
      (drain1^[f.output.length + 1] (initSession pid args f)).completed = true ∧
      (drain1^[f.output.length + 1] (initSession pid args f)).buffer =
        f.output.flatten := by
  refine ⟨sessionStep_buffer_grows, sessionStep_final_immutable, ?_⟩
  intro pid args f
  obtain ⟨hc, hb⟩ := drain_run f.output (initSession pid args f) rfl rfl
  exact ⟨hc, by rw [hb]; rfl⟩

theorem C6_witness :
    exRunning.buffer <+: (drain1 exRunning).buffer ∧
    exDrained.buffer = exFile.output.flatten :=
  ⟨C6_buffer_append_only_until_final.1 exRunning (drain1 exRunning)
      (SessionStep.drain exRunning),
    (C6_buffer_append_only_until_final.2.2 0 [] exFile).2⟩

/-- C7: the Path Resolver is a pure function of the virtual path (for a fixed
reserved delimiter), and its split into backing path plus argument list is
lossless and unambiguous: re-joining with the delimiter recovers the original
virtual path, so the split is injective. -/
theorem C7_resolver_roundtrip (d : Char) :
    (∀ vpath : List Char,
      rejoin d (resolve d vpath).1 (resolve d vpath).2 = vpath) ∧
    Function.Injective (resolve d) := by
  have hrt : ∀ vpath : List Char,
      rejoin d (resolve d vpath).1 (resolve d vpath).2 = vpath := by
    intro vpath
    cases hs : splitOnChar d vpath with
    | nil => exact absurd hs (splitOnChar_ne_nil d vpath)
    | cons b args =>
      have hj := joinWith_splitOnChar d vpath
      rw [hs] at hj
      simp only [resolve, rejoin, hs]
      exact hj
  refine ⟨hrt, ?_⟩
  intro p1 p2 hpp
  have h1 := hrt p1
  have h2 := hrt p2
  rw [← h1, ← h2, hpp]

theorem C7_witness :
    rejoin '#' (resolve '#' ['a', '#', 'b']).1 (resolve '#' ['a', '#', 'b']).2 =
      ['a', '#', 'b'] :=
  (C7_resolver_roundtrip '#').1 ['a', '#', 'b']

/-- C8: after `release` of a handle bound to a session — at any point of the
drain's progress, completed or still running — the handle's table entry is
gone and the session's subprocess is terminated/reaped with both of its stream
descriptors closed, so neither the subprocess nor a descriptor leaks. -/
theorem C8_release_reaps_and_removes (st : CoreState) (h : Nat) (s : ExecSession)
    (hfind : findEntry h st.table = some s) :
    findEntry h (release st h).table = none ∧
    ∀ q : ProcState, findEntry s.procId (release st h).procs = some q →
      q.alive = false ∧ q.inOpen = false ∧ q.outOpen = false := by
  simp only [release, hfind]
  exact ⟨findEntry_filter_out h st.table,
    fun q hq => findEntry_reap s.procId st.procs q hq⟩

theorem C8_witness :
    findEntry 0 (release exStateC2 0).table = none :=
  (C8_release_reaps_and_removes exStateC2 0 exRunning (by decide)).1

/-- C9: two successful opens of the same virtual path yield distinct handles
bound to distinct sessions (distinct subprocess identifiers); a read on a
handle serves bytes from that handle's own session buffer only; and a drain
step of either handle's session leaves reads on the other handle unchanged,
in both directions. -/
theorem C9_independent_sessions (st : CoreState) (vpath : List Char)
    (h1 h2 : Nat) (st1 st2 : CoreState)
    (ho1 : execOpen st vpath = (Except.ok h1, st1))
    (ho2 : execOpen st1 vpath = (Except.ok h2, st2)) :
    h1 ≠ h2 ∧
    (∀ s1 s2 : ExecSession, findEntry h1 st2.table = some s1 →
      findEntry h2 st2.table = some s2 → s1.procId ≠ s2.procId) ∧
    (∀ off len : Nat, ∀ s1 : ExecSession, findEntry h1 st2.table = some s1 →
      (execRead st2 h1 off len).1 = Except.ok ((s1.buffer.drop off).take len)) ∧
    (∀ off len : Nat,
      (execRead (drainHandle st2 h2) h1 off len).1 = (execRead st2 h1 off len).1) ∧
    (∀ off len : Nat,
      (execRead (drainHandle st2 h1) h2 off len).1 = (execRead st2 h2 off len).1) := by
  obtain ⟨hh1, hn1, hp1, ht1, hd1, htr1⟩ := execOpen_ok st vpath h1 st1 ho1
  obtain ⟨hh2, hn2, hp2, ht2, hd2, htr2⟩ := execOpen_ok st1 vpath h2 st2 ho2
  have hkey1 : ¬ st.nextHandle = h1 + 1 := by rw [hh1]; omega
  have hne : h1 ≠ h2 := by rw [hh1, hh2, hn1]; omega
  have hfA : findEntry h1 st2.table =
      some (initSession st.nextProc (resolve st.delim vpath).2
        ((findFile (resolve st.delim vpath).1 st.tree).getD default)) := by
    rw [ht2, ht1]
    simp only [findEntry]
    rw [if_neg (by rw [hn1, hh1]; omega), if_pos hh1.symm]
  have hfB : findEntry h2 st2.table =
      some (initSession st1.nextProc (resolve st1.delim vpath).2
        ((findFile (resolve st1.delim vpath).1 st1.tree).getD default)) := by
    rw [ht2]
    simp only [findEntry]
    rw [if_pos hh2.symm]
  refine ⟨hne, ?_, ?_, ?_, ?_⟩
  · intro s1 s2 hs1 hs2
    rw [hfA] at hs1
    rw [hfB] at hs2
    injection hs1 with hs1
    injection hs2 with hs2
    rw [← hs1, ← hs2]
    show st.nextProc ≠ st1.nextProc
    rw [hp1]
    omega
  · intro off len s1 hs1
    rw [execRead_found st2 h1 off len s1 hs1]
    rfl
  · intro off len
    have hmap : findEntry h1 (drainHandle st2 h2).table = findEntry h1 st2.table := by
      show findEntry h1
        (st2.table.map (fun e => if e.1 = h2 then (e.1, drain1 e.2) else e)) =
        findEntry h1 st2.table
      exact findEntry_map_key h1 h2 drain1 st2.table hne
    unfold execRead
    rw [hmap]
    cases findEntry h1 st2.table <;> rfl
  · intro off len
    have hmap : findEntry h2 (drainHandle st2 h1).table = findEntry h2 st2.table := by
      show findEntry h2
        (st2.table.map (fun e => if e.1 = h1 then (e.1, drain1 e.2) else e)) =
        findEntry h2 st2.table
      exact findEntry_map_key h2 h1 drain1 st2.table hne.symm
    unfold execRead
    rw [hmap]
    cases findEntry h2 st2.table <;> rfl

/-- The state after one successful open of the example path. -/
def exOpened1 : CoreState := (execOpen exState ['p']).2

/-- The state after a second open of the same example path. -/
def exOpened2 : CoreState := (execOpen exOpened1 ['p']).2

theorem C9_witness :
    (0 : Nat) ≠ 1 ∧
    (execRead (drainHandle exOpened2 1) 0 0 8).1 = (execRead exOpened2 0 0 8).1 := by
  have hmain := C9_independent_sessions exState ['p'] 0 1 exOpened1 exOpened2
    rfl rfl
  exact ⟨hmain.1, hmain.2.2.2.1 0 8⟩

/-! ## Package definition (src/setup.py) -/

/-- Shallow embedding of the keyword arguments of the `setup(...)` call in
src/setup.py. -/
structure SetupArgs where
  name : String
  version : String
  description : String
  author : String
  author_email : String
  maintainer : String
  maintainer_email : String
  license : String
  url : String
  scripts : List String
  install_requires : List String
  classifiers : List String
  deriving DecidableEq

/-- The exact argument record of the `setup(...)` call in src/setup.py. -/
def execfsSetup : SetupArgs :=
  { name := "execfs"
    version := "1.0.0"
    description := "The superior FUSE filesystem for exec on file open"
    author := "Akritas Akritidis"
    author_email := "akritasak@gmail.com"
    maintainer := "Akritas Akritidis"
    maintainer_email := "akritasak@gmail.com"
    license := "MIT"
    url := "http://github.com/MaanooAk/execfs"
    scripts := ["execfs"]
    install_requires := ["fusepy"]
    classifiers := ["Topic :: System :: Filesystems"] }

/-- C10: the package definition declares exactly one executable command,
named `execfs` (its `scripts` list), and exactly one runtime dependency,
`fusepy` (its `install_requires` list). -/
theorem C10_setup_single_script_single_dep :
    execfsSetup.scripts = ["execfs"] ∧ execfsSetup.scripts.length = 1 ∧
    execfsSetup.install_requires = ["fusepy"] ∧
    execfsSetup.install_requires.length = 1 :=
  ⟨rfl, rfl, rfl, rfl⟩

end Execfs
